import Mathlib

/-!
Verification of the tool-calling orchestration core of the DeepSeek Engineer
CLI (`src/deepseek-eng-new.py`): the snippet-based file-edit engine
(`apply_diff_edit` / `create_file`), the streamed tool-call fragment
assembler and validator of the main loop, conversation-history truncation
(`smart_truncate_history`) and file-context management
(`add_file_context_smartly`), the git tool handlers, and the tool dispatcher
(`execute_function_call_dict`).

Embedding conventions:
* Python strings holding file contents and snippets are embedded as
  `List Char`; paths, messages and conversation text as `String`.
* The filesystem is an association list from already-normalized paths to
  contents.  `normalize_path` consults the real filesystem (symlink and
  existence resolution), so it is embedded as the identity on paths that are
  assumed to be already resolved; everything `apply_diff_edit` does after
  normalization is modelled exactly.
* `json.loads` is embedded as an abstract parser argument
  (`String → Option Json`); the dispatcher and validator are parametric in it.
* Exceptions are embedded as `Except` values; the `try/except` structure of
  the source is mirrored by explicit handlers.
-/

namespace DeepSeekEng

/-! ## 1. Snippet editor (`apply_diff_edit`, `create_file`) -/

/-- `MAX_FILE_CONTENT_SIZE_CREATE = 5_000_000` from the configuration
constants of `deepseek-eng-new.py`. -/
def MAX_FILE_CONTENT_SIZE_CREATE : Nat := 5000000

/-- Python `content.count(original_snippet)` for a non-empty needle:
counts non-overlapping occurrences scanning left to right; after a match the
scan resumes right after the matched block.  The second argument is the
number of characters still to skip because they belong to the block matched
last (`0` while scanning normally). -/
def countOccAux (sub : List Char) : List Char → Nat → Nat
  | [], _ => 0
  | _ :: rest, Nat.succ k => countOccAux sub rest k
  | c :: rest, 0 =>
    if sub.isPrefixOf (c :: rest) then 1 + countOccAux sub rest (sub.length - 1)
    else countOccAux sub rest 0

/-- Python `str.count`: for an empty needle Python returns `len(s) + 1`. -/
def countOccurrences (s sub : List Char) : Nat :=
  if sub.isEmpty then s.length + 1 else countOccAux sub s 0

/-- Replace the first (leftmost) occurrence of `sub`, as Python
`s.replace(sub, new, 1)` does for a non-empty `sub`; if there is no
occurrence the input is returned unchanged. -/
def replaceOnceAux (sub new_snippet : List Char) : List Char → List Char
  | [] => []
  | c :: rest =>
    if sub.isPrefixOf (c :: rest) then new_snippet ++ rest.drop (sub.length - 1)
    else c :: replaceOnceAux sub new_snippet rest

/-- Python `s.replace(sub, new, 1)`: an empty needle inserts `new` at the
front. -/
def pyReplaceOne (s sub new_snippet : List Char) : List Char :=
  if sub.isEmpty then new_snippet ++ s else replaceOnceAux sub new_snippet s

/-- The filesystem: an association list from normalized paths to contents. -/
abbrev FileSystem := List (String × List Char)

/-- Content of the file at `p`, `none` when the file does not exist
(Python `open` raising `FileNotFoundError`). -/
def fsRead (fs : FileSystem) (p : String) : Option (List Char) :=
  (fs.find? (fun e => e.1 == p)).map (fun e => e.2)

/-- Whole-file overwrite: replace the content stored at `p`, or append a new
entry when `p` was absent. -/
def fsWrite (fs : FileSystem) (p : String) (c : List Char) : FileSystem :=
  if fs.any (fun e => e.1 == p) then
    fs.map (fun e => if e.1 == p then (p, c) else e)
  else fs ++ [(p, c)]

/-- Split a character list at `/` separators (the components `Path.parts`
iterates over, up to pathlib's removal of empty components, which can never
start with `~` anyway). -/
def splitSlash (acc : List Char) : List Char → List (List Char)
  | [] => [acc.reverse]
  | c :: rest =>
    if c = '/' then acc.reverse :: splitSlash [] rest
    else splitSlash (c :: acc) rest

/-- `create_file`'s guard `any(part.startswith('~') for part in file_path.parts)`:
some `/`-separated component of the path starts with `~`. -/
def hasHomeRef (path : String) : Bool :=
  (splitSlash [] path.data).any (fun part => part.headD ' ' == '~')

/-- The two `ValueError`s `create_file` can raise before writing. -/
inductive CreateError
  | homeRef
  | tooLarge
deriving DecidableEq, Repr

/-- `create_file(path, content)` from `deepseek-eng-new.py` (lines 415-427):
rejects home-directory references, rejects content above
`MAX_FILE_CONTENT_SIZE_CREATE`, otherwise overwrites the whole file.  The
git auto-staging side effect touches no file content and is modelled in the
git section. -/
def create_file (fs : FileSystem) (path : String) (content : List Char) :
    Except CreateError FileSystem :=
  if hasHomeRef path then .error .homeRef
  else if MAX_FILE_CONTENT_SIZE_CREATE < content.length then .error .tooLarge
  else .ok (fsWrite fs path content)

/-- Outcome reported by `apply_diff_edit` on the console. -/
inductive EditOutcome
  | applied
  | fileNotFound
  | snippetNotFound
  | ambiguousEdit (occurrences : Nat)
  | createFailed (e : CreateError)
deriving DecidableEq, Repr

/-- `apply_diff_edit(path, original_snippet, new_snippet)` from
`deepseek-eng-new.py` (lines 441-469): read the file, count exact
occurrences of the snippet, refuse on zero or several matches, otherwise
replace the single occurrence and write the file back through
`create_file`.  All raised `ValueError`s / `FileNotFoundError`s are caught
in the function itself, leaving the filesystem unchanged. -/
def apply_diff_edit (fs : FileSystem) (path : String)
    (original_snippet new_snippet : List Char) : FileSystem × EditOutcome :=
  match fsRead fs path with
  | none => (fs, .fileNotFound)
  | some content =>
    let occurrences := countOccurrences content original_snippet
    if occurrences = 0 then (fs, .snippetNotFound)
    else if 1 < occurrences then (fs, .ambiguousEdit occurrences)
    else
      match create_file fs path (pyReplaceOne content original_snippet new_snippet) with
      | .ok fs2 => (fs2, .applied)
      | .error e => (fs, .createFailed e)

lemma exists_decomp_of_countOccAux_pos (sub new_snippet : List Char) (hsub : sub ≠ []) :
    ∀ s : List Char, 1 ≤ countOccAux sub s 0 →
      ∃ p q, s = p ++ sub ++ q ∧ replaceOnceAux sub new_snippet s = p ++ new_snippet ++ q := by
  intro s
  induction s with
  | nil => intro h; simp [countOccAux] at h
  | cons c rest ih =>
    intro h
    by_cases hpre : sub.isPrefixOf (c :: rest) = true
    · rw [List.isPrefixOf_iff_prefix] at hpre
      obtain ⟨t, ht⟩ := hpre
      obtain ⟨d, sub2, rfl⟩ := List.exists_cons_of_ne_nil hsub
      have hd : d = c ∧ sub2 ++ t = rest := by
        simpa using ht
      obtain ⟨rfl, hrest⟩ := hd
      refine ⟨[], t, ?_, ?_⟩
      · simp [← hrest]
      · have hdrop : rest.drop ((d :: sub2).length - 1) = t := by
          rw [← hrest]
          simp
        rw [replaceOnceAux, if_pos (by rw [List.isPrefixOf_iff_prefix]; exact ⟨t, ht⟩), hdrop]
        simp
    · simp only [countOccAux, if_neg hpre] at h
      obtain ⟨p, q, hpq, hrep⟩ := ih h
      exact ⟨c :: p, q, by simp [hpq], by rw [replaceOnceAux, if_neg hpre, hrep]; simp⟩

lemma exists_decomp_of_countOccurrences_pos (s sub new_snippet : List Char)
    (h : 1 ≤ countOccurrences s sub) :
    ∃ p q, s = p ++ sub ++ q ∧ pyReplaceOne s sub new_snippet = p ++ new_snippet ++ q := by
  unfold countOccurrences pyReplaceOne at *
  by_cases hsub : sub.isEmpty = true
  · rw [if_pos hsub] at h ⊢
    have : sub = [] := by simpa [List.isEmpty_iff] using hsub
    exact ⟨[], s, by simp [this], by simp⟩
  · rw [if_neg hsub] at h ⊢
    exact exists_decomp_of_countOccAux_pos sub new_snippet
      (by simpa [List.isEmpty_iff] using hsub) s h

/-- C1 (amended).  When the file exists, the original snippet occurs in its
content exactly once, the path has no `~`-component and the replaced content
stays within `create_file`'s size ceiling, `apply_diff_edit` rewrites the
file in one whole-file overwrite: the new content is the old one with the
single occurrence of `original_snippet` replaced by `new_snippet` and every
other character unchanged. -/
theorem apply_diff_edit_unique_match
    (fs : FileSystem) (path : String) (content original_snippet new_snippet : List Char)
    (hread : fsRead fs path = some content)
    (hocc : countOccurrences content original_snippet = 1)
    (hhome : hasHomeRef path = false)
    (hsize : (pyReplaceOne content original_snippet new_snippet).length ≤ MAX_FILE_CONTENT_SIZE_CREATE) :
    ∃ p q, content = p ++ original_snippet ++ q ∧
      apply_diff_edit fs path original_snippet new_snippet =
        (fsWrite fs path (p ++ new_snippet ++ q), EditOutcome.applied) := by
  obtain ⟨p, q, hpq, hrep⟩ :=
    exists_decomp_of_countOccurrences_pos content original_snippet new_snippet (by omega)
  refine ⟨p, q, hpq, ?_⟩
  unfold apply_diff_edit
  rw [hread]
  simp only [hocc]
  rw [if_neg (by omega), if_neg (by omega)]
  unfold create_file
  rw [if_neg (by simp [hhome]), if_neg (by omega), hrep]

/-- Witness for C1's amended theorem at a concrete filesystem. -/
theorem apply_diff_edit_unique_match_witness :
    ∃ p q, (['x', 'a', 'y'] : List Char) = p ++ ['a'] ++ q ∧
      apply_diff_edit [("/r/f.txt", ['x', 'a', 'y'])] "/r/f.txt" ['a'] ['b'] =
        (fsWrite [("/r/f.txt", ['x', 'a', 'y'])] "/r/f.txt" (p ++ ['b'] ++ q),
          EditOutcome.applied) :=
  apply_diff_edit_unique_match [("/r/f.txt", ['x', 'a', 'y'])] "/r/f.txt"
    ['x', 'a', 'y'] ['a'] ['b'] (by decide) (by decide) (by decide) (by decide)

/-- C1 as stated is false: for a file whose (resolved) path contains a
component starting with `~` — here a file literally named `~f` — the
unique-match edit is refused by `create_file`'s home-reference guard and no
write happens, even though the snippet occurs exactly once.  (The real code
prints `Home directory references not allowed ... No changes.`.) -/
theorem apply_diff_edit_home_ref_counterexample :
    fsRead [("/r/~f", ['a'])] "/r/~f" = some ['a'] ∧
    countOccurrences ['a'] ['a'] = 1 ∧
    apply_diff_edit [("/r/~f", ['a'])] "/r/~f" ['a'] ['b'] =
      ([("/r/~f", ['a'])], EditOutcome.createFailed CreateError.homeRef) := by
  decide

/-- C2.  When the file exists and the snippet occurs zero times the edit
reports `snippetNotFound`; when it occurs two or more times it reports the
ambiguous-edit failure with the occurrence count; in both cases the
filesystem is returned unchanged (no mutation). -/
theorem apply_diff_edit_zero_or_many
    (fs : FileSystem) (path : String) (content original_snippet new_snippet : List Char)
    (hread : fsRead fs path = some content) :
    (countOccurrences content original_snippet = 0 →
      apply_diff_edit fs path original_snippet new_snippet = (fs, EditOutcome.snippetNotFound)) ∧
    (2 ≤ countOccurrences content original_snippet →
      apply_diff_edit fs path original_snippet new_snippet =
        (fs, EditOutcome.ambiguousEdit (countOccurrences content original_snippet))) := by
  constructor
  · intro h
    unfold apply_diff_edit
    rw [hread]
    simp [h]
  · intro h
    unfold apply_diff_edit
    rw [hread]
    simp only
    rw [if_neg (by omega), if_pos (by omega)]

/-- Witness for C2 at a concrete filesystem: two occurrences refuse with the
count, a missing snippet refuses with `snippetNotFound`. -/
theorem apply_diff_edit_zero_or_many_witness :
    apply_diff_edit [("/r/f", ['a', 'a'])] "/r/f" ['a'] ['b'] =
      ([("/r/f", ['a', 'a'])], EditOutcome.ambiguousEdit 2) ∧
    apply_diff_edit [("/r/f", ['a', 'a'])] "/r/f" ['z'] ['b'] =
      ([("/r/f", ['a', 'a'])], EditOutcome.snippetNotFound) := by
  constructor
  · exact (apply_diff_edit_zero_or_many [("/r/f", ['a', 'a'])] "/r/f" ['a', 'a'] ['a'] ['b']
      (by decide)).2 (by decide)
  · exact (apply_diff_edit_zero_or_many [("/r/f", ['a', 'a'])] "/r/f" ['a', 'a'] ['z'] ['b']
      (by decide)).1 (by decide)

/-! ## 2. Tool call assembler (main loop, lines 1050-1069) -/

/-- A fully accumulated tool call: the dict
`{"id": ..., "type": "function", "function": {"name": ..., "arguments": ...}}`
built by the main loop.  The `"type"` field is the constant `"function"` and
is never consulted, so it is not carried. -/
structure ToolCallRec where
  id : String
  name : String
  arguments : String
deriving DecidableEq, Repr

/-- The placeholder dict appended while growing the accumulator list. -/
def emptyToolCall : ToolCallRec := { id := "", name := "", arguments := "" }

/-- One streamed delta for the tool call at position `index`
(`tool_call_chunk`).  A `none` field models an absent field (including the
whole `function` sub-object being `None`, which makes both `name` and
`arguments` absent). -/
structure ToolCallFragment where
  index : Nat
  id : Option String := none
  name : Option String := none
  arguments : Option String := none
deriving DecidableEq, Repr

/-- `if tool_call_chunk.id: current_tool_dict["id"] = tool_call_chunk.id` —
by Python truthiness a missing or empty value leaves the field alone,
otherwise the whole value overwrites it. -/
def overwriteField (old : String) : Option String → String
  | some s => if s == "" then old else s
  | none => old

/-- `if chunk.function.arguments: current["function"]["arguments"] += ...` —
non-empty argument chunks are concatenated in arrival order. -/
def appendArguments (old : String) : Option String → String
  | some s => if s == "" then old else old ++ s
  | none => old

/-- Apply one fragment to the partially built call at its index. -/
def updateToolCall (tc : ToolCallRec) (f : ToolCallFragment) : ToolCallRec :=
  { id := overwriteField tc.id f.id
    name := overwriteField tc.name f.name
    arguments := appendArguments tc.arguments f.arguments }

/-- `while len(accumulated_tool_calls) <= idx: append(placeholder)`. -/
def padTo (l : List ToolCallRec) (idx : Nat) : List ToolCallRec :=
  l ++ List.replicate (idx + 1 - l.length) emptyToolCall

/-- Process one streamed fragment against the accumulator list. -/
def applyFragment (l : List ToolCallRec) (f : ToolCallFragment) : List ToolCallRec :=
  (padTo l f.index).set f.index
    (updateToolCall ((padTo l f.index).getD f.index emptyToolCall) f)

/-- The whole fragment-accumulation loop of one streamed turn
(`accumulated_tool_calls` after the `for chunk in response_stream` loop). -/
def accumulateToolCalls (frags : List ToolCallFragment) : List ToolCallRec :=
  frags.foldl applyFragment []

/-- Entry of the accumulator at index `i`, with the placeholder as default
(positions beyond the end behave like never-touched placeholders). -/
def elemAt : List ToolCallRec → Nat → ToolCallRec
  | [], _ => emptyToolCall
  | x :: _, 0 => x
  | _ :: rest, n + 1 => elemAt rest n

lemma elemAt_append_replicate (l : List ToolCallRec) (k : Nat) :
    ∀ i, elemAt (l ++ List.replicate k emptyToolCall) i = elemAt l i := by
  induction l with
  | nil =>
    intro i
    induction k generalizing i with
    | zero => rfl
    | succ k ih =>
      cases i with
      | zero => rfl
      | succ i => simpa [List.replicate_succ, elemAt] using ih i
  | cons x rest ih =>
    intro i
    cases i with
    | zero => rfl
    | succ i => simpa [elemAt] using ih i

lemma elemAt_set (x : ToolCallRec) :
    ∀ (l : List ToolCallRec) (j i : Nat),
      elemAt (l.set j x) i = if j = i ∧ j < l.length then x else elemAt l i := by
  intro l
  induction l with
  | nil => intro j i; simp [List.set]
  | cons a rest ih =>
    intro j i
    cases j with
    | zero =>
      cases i with
      | zero => simp [List.set, elemAt]
      | succ i => simp [List.set, elemAt]
    | succ j =>
      cases i with
      | zero => simp [List.set, elemAt]
      | succ i =>
        have := ih j i
        simp only [List.set, elemAt, List.length_cons, this]
        by_cases h : j = i ∧ j < rest.length
        · rw [if_pos h, if_pos ⟨by omega, by omega⟩]
        · rw [if_neg h, if_neg (by omega)]

lemma elemAt_getD (l : List ToolCallRec) : ∀ i, l.getD i emptyToolCall = elemAt l i := by
  induction l with
  | nil => intro i; rfl
  | cons a rest ih =>
    intro i
    cases i with
    | zero => rfl
    | succ i => simpa [List.getD] using ih i

lemma length_padTo (l : List ToolCallRec) (j : Nat) :
    (padTo l j).length = max l.length (j + 1) := by
  simp [padTo]
  omega

lemma elemAt_applyFragment (l : List ToolCallRec) (f : ToolCallFragment) (i : Nat) :
    elemAt (applyFragment l f) i =
      if f.index = i then updateToolCall (elemAt l i) f else elemAt l i := by
  unfold applyFragment
  rw [elemAt_set, elemAt_getD]
  unfold padTo
  rw [elemAt_append_replicate, elemAt_append_replicate]
  by_cases h : f.index = i
  · rw [if_pos ⟨h, by simp; omega⟩, if_pos h, h]
  · rw [if_neg (by tauto), if_neg h]

lemma length_applyFragment (l : List ToolCallRec) (f : ToolCallFragment) :
    (applyFragment l f).length = max l.length (f.index + 1) := by
  unfold applyFragment
  rw [List.length_set]
  exact length_padTo l f.index

/-- Pointwise characterization of the accumulation loop: the call built at
index `i` is the fold of exactly the fragments carrying that index, in
arrival order. -/
lemma elemAt_accumulate_aux (i : Nat) :
    ∀ (frags : List ToolCallFragment) (l : List ToolCallRec),
      elemAt (frags.foldl applyFragment l) i =
        (frags.filter (fun f => f.index == i)).foldl updateToolCall (elemAt l i) := by
  intro frags
  induction frags with
  | nil => intro l; rfl
  | cons f rest ih =>
    intro l
    rw [List.foldl_cons, ih, elemAt_applyFragment]
    by_cases h : f.index = i
    · rw [if_pos h, List.filter_cons_of_pos (by simpa using h), List.foldl_cons]
    · rw [if_neg h, List.filter_cons_of_neg (by simpa using h)]

/-- Length of the accumulator after the loop: one past the largest index
seen (the list only grows by padding up to a fragment's index). -/
lemma length_accumulate_aux :
    ∀ (frags : List ToolCallFragment) (l : List ToolCallRec),
      (frags.foldl applyFragment l).length =
        frags.foldl (fun n f => max n (f.index + 1)) l.length := by
  intro frags
  induction frags with
  | nil => intro l; rfl
  | cons f rest ih =>
    intro l
    rw [List.foldl_cons, List.foldl_cons, ih, length_applyFragment]

lemma foldl_max_le (m : Nat) :
    ∀ (frags : List ToolCallFragment) (n : Nat),
      (∀ f ∈ frags, f.index < m) → n ≤ m →
      frags.foldl (fun n f => max n (f.index + 1)) n ≤ m := by
  intro frags
  induction frags with
  | nil => intro n _ h; simpa using h
  | cons f rest ih =>
    intro n hf hn
    rw [List.foldl_cons]
    exact ih _ (fun g hg => hf g (List.mem_cons_of_mem f hg))
      (by have := hf f (List.mem_cons_self f rest); omega)

lemma le_foldl_max :
    ∀ (frags : List ToolCallFragment) (n : Nat),
      n ≤ frags.foldl (fun n f => max n (f.index + 1)) n := by
  intro frags
  induction frags with
  | nil => intro n; exact Nat.le_refl n
  | cons f rest ih =>
    intro n
    rw [List.foldl_cons]
    exact Nat.le_trans (Nat.le_max_left _ _) (ih _)

lemma mem_le_foldl_max (g : ToolCallFragment) :
    ∀ (frags : List ToolCallFragment) (n : Nat), g ∈ frags →
      g.index + 1 ≤ frags.foldl (fun n f => max n (f.index + 1)) n := by
  intro frags
  induction frags with
  | nil => intro n h; cases h
  | cons f rest ih =>
    intro n h
    rw [List.foldl_cons]
    rcases List.mem_cons.mp h with rfl | h
    · exact Nat.le_trans (Nat.le_max_right _ _) (le_foldl_max rest _)
    · exact ih _ h

lemma eq_of_elemAt :
    ∀ (l₁ l₂ : List ToolCallRec), l₁.length = l₂.length →
      (∀ i, elemAt l₁ i = elemAt l₂ i) → l₁ = l₂ := by
  intro l₁
  induction l₁ with
  | nil =>
    intro l₂ hlen _
    cases l₂ with
    | nil => rfl
    | cons b t => simp at hlen
  | cons a t ih =>
    intro l₂ hlen helem
    cases l₂ with
    | nil => simp at hlen
    | cons b u =>
      have h0 := helem 0
      simp only [elemAt] at h0
      subst h0
      rw [ih u (by simpa using hlen) (fun i => helem (i + 1))]

lemma elemAt_of_le_length : ∀ (l : List ToolCallRec) (i : Nat), l.length ≤ i →
    elemAt l i = emptyToolCall := by
  intro l
  induction l with
  | nil => intro i _; rfl
  | cons a t ih =>
    intro i hi
    cases i with
    | zero => simp at hi
    | succ i => exact ih i (by simpa using hi)

lemma elemAt_eq_get : ∀ (l : List ToolCallRec) (i : Nat) (h : i < l.length),
    elemAt l i = l.get ⟨i, h⟩ := by
  intro l
  induction l with
  | nil => intro i h; simp at h
  | cons a t ih =>
    intro i h
    cases i with
    | zero => rfl
    | succ i => exact ih i (by simpa using h)

/-- `fs.any` over fragments that carry a non-empty (Python-truthy) value in
the field selected by `get`. -/
def hasValueIn (get : ToolCallFragment → Option String) (fs : List ToolCallFragment) : Bool :=
  fs.any (fun f => match get f with | some t => !(t == "") | none => false)

/-- All fragments of this list deliver the field selected by `get` whole:
any present, non-empty value is exactly `v`. -/
def fieldWhole (get : ToolCallFragment → Option String) (v : String)
    (fs : List ToolCallFragment) : Bool :=
  fs.all (fun f => match get f with | some t => t == "" || t == v | none => true)

/-- Concatenation of the argument chunks of a fragment list, in order. -/
def argsConcat (fs : List ToolCallFragment) : String :=
  fs.foldl (fun a f => appendArguments a f.arguments) ""

/-- The fragment list `fs` delivers the call `c` split into pieces: `id` and
`name` arrive as whole values (possibly several times, possibly with empty
no-op chunks), and the argument chunks concatenate, in arrival order, to the
full arguments text. -/
abbrev DeliversCall (fs : List ToolCallFragment) (c : ToolCallRec) : Prop :=
  fieldWhole (fun f => f.id) c.id fs = true ∧
  (c.id ≠ "" → hasValueIn (fun f => f.id) fs = true) ∧
  fieldWhole (fun f => f.name) c.name fs = true ∧
  (c.name ≠ "" → hasValueIn (fun f => f.name) fs = true) ∧
  argsConcat fs = c.arguments

lemma foldl_updateToolCall_components :
    ∀ (fs : List ToolCallFragment) (tc : ToolCallRec),
      fs.foldl updateToolCall tc =
        { id := fs.foldl (fun a f => overwriteField a f.id) tc.id
          name := fs.foldl (fun a f => overwriteField a f.name) tc.name
          arguments := fs.foldl (fun a f => appendArguments a f.arguments) tc.arguments } := by
  intro fs
  induction fs with
  | nil => intro tc; rfl
  | cons f rest ih => intro tc; rw [List.foldl_cons, ih]; rfl

lemma foldl_overwriteField_eq (get : ToolCallFragment → Option String) (v : String) :
    ∀ (fs : List ToolCallFragment), fieldWhole get v fs = true →
      ∀ s : String,
        fs.foldl (fun a f => overwriteField a (get f)) s =
          if hasValueIn get fs then v else s := by
  intro fs
  induction fs with
  | nil => intro _ s; rfl
  | cons f rest ih =>
    intro hok s
    rw [fieldWhole, List.all_cons, Bool.and_eq_true] at hok
    obtain ⟨hf, hrest⟩ := hok
    rw [List.foldl_cons]
    cases hget : get f with
    | none =>
      rw [hasValueIn, List.any_cons, hget]
      simpa [overwriteField, hget, hasValueIn] using ih hrest s
    | some t =>
      rw [hget] at hf
      by_cases ht : t = ""
      · subst ht
        rw [hasValueIn, List.any_cons, hget]
        simpa [overwriteField, hget, hasValueIn] using ih hrest s
      · have htv : t = v := by
          have hf2 : t = "" ∨ t = v := by simpa using hf
          rcases hf2 with h | h
          · exact absurd h ht
          · exact h
        subst htv
        have hover : overwriteField s (some t) = t := by
          simp [overwriteField, ht]
        rw [hover, ih hrest t]
        simp [ht, hasValueIn, hget]

/-- A fragment list that delivers `c` folds, starting from the placeholder,
to exactly `c`. -/
lemma foldl_of_deliversCall (fs : List ToolCallFragment) (c : ToolCallRec)
    (h : DeliversCall fs c) : fs.foldl updateToolCall emptyToolCall = c := by
  obtain ⟨hid, hidp, hname, hnamep, hargs⟩ := h
  rw [foldl_updateToolCall_components]
  have hidv : fs.foldl (fun a f => overwriteField a f.id) emptyToolCall.id = c.id := by
    rw [foldl_overwriteField_eq _ _ _ hid]
    by_cases hc : c.id = ""
    · split <;> simp [emptyToolCall, hc]
    · rw [if_pos (hidp hc)]
  have hnamev : fs.foldl (fun a f => overwriteField a f.name) emptyToolCall.name = c.name := by
    rw [foldl_overwriteField_eq _ _ _ hname]
    by_cases hc : c.name = ""
    · split <;> simp [emptyToolCall, hc]
    · rw [if_pos (hnamep hc)]
  cases c with
  | mk cid cname cargs =>
    simp only [ToolCallRec.mk.injEq]
    exact ⟨hidv, hnamev, hargs⟩

/-- The baseline delivery: one unsplit fragment per call, in index order
starting at `i`. -/
def unsplitFrom : Nat → List ToolCallRec → List ToolCallFragment
  | _, [] => []
  | i, c :: rest =>
    { index := i, id := some c.id, name := some c.name, arguments := some c.arguments } ::
      unsplitFrom (i + 1) rest

/-- One unsplit fragment per call: index `k` carries the whole `id`, `name`
and `arguments` of call `k`. -/
def unsplitFragments (calls : List ToolCallRec) : List ToolCallFragment :=
  unsplitFrom 0 calls

lemma updateToolCall_empty_unsplit (c : ToolCallRec) (i : Nat) :
    updateToolCall emptyToolCall
      { index := i, id := some c.id, name := some c.name, arguments := some c.arguments } = c := by
  cases c with
  | mk cid cname cargs =>
    simp only [updateToolCall, emptyToolCall, overwriteField, appendArguments,
      ToolCallRec.mk.injEq]
    refine ⟨?_, ?_, ?_⟩ <;> split <;> simp_all [String.empty_append]

lemma elemAt_append_last (x : ToolCallRec) :
    ∀ l : List ToolCallRec, elemAt (l ++ [x]) l.length = x := by
  intro l
  induction l with
  | nil => rfl
  | cons a t ih => simpa [elemAt] using ih

lemma set_append_last (x y : ToolCallRec) :
    ∀ l : List ToolCallRec, (l ++ [x]).set l.length y = l ++ [y] := by
  intro l
  induction l with
  | nil => rfl
  | cons a t ih => simp [List.set, ih]

lemma applyFragment_at_length (l : List ToolCallRec) (c : ToolCallRec)
    (f : ToolCallFragment) (hidx : f.index = l.length)
    (hupd : updateToolCall emptyToolCall f = c) :
    applyFragment l f = l ++ [c] := by
  unfold applyFragment padTo
  rw [hidx]
  have hrep : List.replicate (l.length + 1 - l.length) emptyToolCall = [emptyToolCall] := by
    simp
  rw [hrep, elemAt_getD, elemAt_append_last, hupd, set_append_last]

/-- Feeding the unsplit fragments through the accumulation loop reproduces
the call list exactly. -/
lemma accumulate_unsplit_aux :
    ∀ (calls : List ToolCallRec) (l : List ToolCallRec),
      (unsplitFrom l.length calls).foldl applyFragment l = l ++ calls := by
  intro calls
  induction calls with
  | nil => intro l; simp [unsplitFrom]
  | cons c rest ih =>
    intro l
    rw [unsplitFrom, List.foldl_cons,
      applyFragment_at_length l c _ rfl (updateToolCall_empty_unsplit c _)]
    have := ih (l ++ [c])
    rw [List.length_append, List.length_cons] at this
    simpa using this

lemma accumulate_unsplit (calls : List ToolCallRec) :
    accumulateToolCalls (unsplitFragments calls) = calls := by
  have := accumulate_unsplit_aux calls []
  simpa [accumulateToolCalls, unsplitFragments] using this

/-- C3.  Chunk-split invariance of the fragment-accumulation loop: if every
fragment's index addresses one of the `calls`, every call receives at least
one fragment, and the fragments at index `i` deliver call `i` (whole `id`
and `name` values, argument chunks concatenating in arrival order to the
call's arguments), then the accumulated list equals the one produced by
delivering each call as a single unsplit fragment, and both equal `calls`. -/
theorem accumulate_split_invariance (frags : List ToolCallFragment) (calls : List ToolCallRec)
    (hidx : ∀ f ∈ frags, f.index < calls.length)
    (hcover : ∀ i, i < calls.length → frags.filter (fun f => f.index == i) ≠ [])
    (hdeliver : ∀ i, (hi : i < calls.length) →
      DeliversCall (frags.filter (fun f => f.index == i)) (calls.get ⟨i, hi⟩)) :
    accumulateToolCalls frags = accumulateToolCalls (unsplitFragments calls) ∧
    accumulateToolCalls (unsplitFragments calls) = calls := by
  have hun := accumulate_unsplit calls
  refine ⟨?_, hun⟩
  rw [hun]
  have hlen : (accumulateToolCalls frags).length = calls.length := by
    rw [accumulateToolCalls, length_accumulate_aux]
    simp only [List.length_nil]
    refine Nat.le_antisymm (foldl_max_le calls.length frags _ hidx (Nat.zero_le _)) ?_
    cases hn : calls.length with
    | zero => exact Nat.zero_le _
    | succ n =>
      have hne := hcover n (by omega)
      obtain ⟨g, hg⟩ := List.exists_mem_of_ne_nil _ hne
      have hgmem : g ∈ frags := List.mem_of_mem_filter hg
      have hgi : g.index = n := by
        have := List.of_mem_filter hg
        simpa using this
      have := mem_le_foldl_max g frags 0 hgmem
      omega
  refine eq_of_elemAt _ _ (by rw [hlen]) ?_
  intro i
  rw [accumulateToolCalls, elemAt_accumulate_aux]
  rw [show elemAt [] i = emptyToolCall from rfl]
  by_cases hi : i < calls.length
  · rw [foldl_of_deliversCall _ _ (hdeliver i hi)]
    exact (elemAt_eq_get calls i hi).symm
  · have hfilter : frags.filter (fun f => f.index == i) = [] := by
      rw [List.filter_eq_nil_iff]
      intro f hf
      have := hidx f hf
      simp only [beq_iff_eq]
      omega
    rw [hfilter]
    exact (elemAt_of_le_length calls i (by omega)).symm

/-- Witness for C3: two tool calls whose fragments arrive interleaved, the
first call's arguments split into two chunks, reproduce the same final list
as the unsplit delivery. -/
theorem accumulate_split_invariance_witness :
    accumulateToolCalls
        [{ index := 0, id := some "call-1", name := some "read_file" },
         { index := 1, id := some "call-2" },
         { index := 0, arguments := some "args-" },
         { index := 1, name := some "git_status", arguments := some "" },
         { index := 0, arguments := some "one" }] =
      accumulateToolCalls (unsplitFragments
        [{ id := "call-1", name := "read_file", arguments := "args-one" },
         { id := "call-2", name := "git_status", arguments := "" }]) ∧
    accumulateToolCalls (unsplitFragments
        [{ id := "call-1", name := "read_file", arguments := "args-one" },
         { id := "call-2", name := "git_status", arguments := "" }]) =
      [{ id := "call-1", name := "read_file", arguments := "args-one" },
       { id := "call-2", name := "git_status", arguments := "" }] :=
  accumulate_split_invariance _ _ (by decide) (by decide) (by decide)

/-! ## 3. Tool call validation (`validate_tool_calls`, lines 330-365) -/

/-- `validate_tool_calls(accumulated_tool_calls)`: walk the candidates in
order; skip (with a console diagnostic) any candidate whose `id` is falsy,
whose function `name` is falsy, or whose non-empty `arguments` text fails
`json.loads`; keep the rest.  `jsonValid` embeds "`json.loads` succeeds"
abstractly. -/
def validate_tool_calls (jsonValid : String → Bool) : List ToolCallRec → List ToolCallRec
  | [] => []
  | tc :: rest =>
    if tc.id == "" then validate_tool_calls jsonValid rest
    else if tc.name == "" then validate_tool_calls jsonValid rest
    else if !(tc.arguments == "") && !jsonValid tc.arguments then
      validate_tool_calls jsonValid rest
    else tc :: validate_tool_calls jsonValid rest

/-- What C6 says a kept candidate is: non-empty `id`, non-empty `name`, and
arguments text that is empty (treated as no arguments) or parses. -/
def valid_tool_call (jsonValid : String → Bool) (tc : ToolCallRec) : Bool :=
  !(tc.id == "") && !(tc.name == "") && (tc.arguments == "" || jsonValid tc.arguments)

/-- C6.  Validation keeps exactly the candidates with a non-empty id, a
non-empty name and empty-or-parsable arguments, in order: it is the filter
by `valid_tool_call`.  A failing candidate is dropped (skipped) without
stopping the scan, so a dropped candidate never aborts the rest of the
turn. -/
theorem validate_tool_calls_eq_filter (jsonValid : String → Bool) :
    ∀ calls : List ToolCallRec,
      validate_tool_calls jsonValid calls = calls.filter (valid_tool_call jsonValid) := by
  intro calls
  induction calls with
  | nil => rfl
  | cons tc rest ih =>
    rw [validate_tool_calls, List.filter_cons]
    by_cases h1 : (tc.id == "") = true
    · simp [valid_tool_call, h1, ih]
    · by_cases h2 : (tc.name == "") = true
      · simp [valid_tool_call, h1, h2, ih]
      · by_cases h3 : (tc.arguments == "") = true
        · simp [valid_tool_call, h1, h2, h3, ih]
        · by_cases h4 : jsonValid tc.arguments = true
          · simp [valid_tool_call, h1, h2, h3, h4, ih]
          · simp [valid_tool_call, h1, h2, h3, h4, ih]

/-! ## 4. Conversation history: truncation, causality, file context
(`smart_truncate_history` lines 265-328, `add_file_context_smartly`
lines 367-404, main loop lines 1072-1105) -/

/-- Role of a conversation entry. -/
inductive Role
  | system
  | user
  | assistant
  | tool
deriving DecidableEq, Repr

/-- One entry of `conversation_history`.  `tool_calls = []` models a dict
without the `"tool_calls"` key: the main loop stores the key only when the
validated list is non-empty, and `msg.get("tool_calls")` is falsy in both
cases.  `tool_call_id = ""` likewise models the key absent from non-tool
entries. -/
structure Msg where
  role : Role
  content : String
  tool_calls : List ToolCallRec := []
  tool_call_id : String := ""
deriving DecidableEq, Repr

/-- Is `sub` an infix (contiguous sublist) of the list?  The empty list is
an infix of everything. -/
def isInfixOfChars (sub : List Char) : List Char → Bool
  | [] => sub.isEmpty
  | c :: rest => sub.isPrefixOf (c :: rest) || isInfixOfChars sub rest

/-- Python substring containment `sub in s`. -/
def containsSubstr (sub s : String) : Bool := isInfixOfChars sub.data s.data

/-- `"User added file" in msg["content"]`: the marker of a file-context
entry. -/
def isFileContext (m : Msg) : Bool := containsSubstr "User added file" m.content

def isSystemRole (m : Msg) : Bool :=
  match m.role with
  | Role.system => true
  | _ => false

def isToolRole (m : Msg) : Bool :=
  match m.role with
  | Role.tool => true
  | _ => false

/-- `msg["role"] == "assistant" and msg.get("tool_calls")`. -/
def isAssistantWithCalls (m : Msg) : Bool :=
  match m.role with
  | Role.assistant => !m.tool_calls.isEmpty
  | _ => false

/-- Python `l[-n:]`. -/
def takeLastN (n : Nat) (l : List Msg) : List Msg := l.drop (l.length - n)

/-- The system entries `smart_truncate_history` retains: with more than one
system entry, the main prompt (index 0) plus the last three file-context
entries; otherwise all of them. -/
def importantSystem (sys : List Msg) : List Msg :=
  if 1 < sys.length then
    match sys with
    | [] => []
    | s0 :: rest => s0 :: takeLastN 3 (rest.filter isFileContext)
  else sys

/-- The backward walk of `smart_truncate_history` (lines 290-316) as a fold
over `other_messages` reversed (newest first).  The third argument is the
loop's position in the Python control flow: `none` while scanning normally,
`some run` while collecting a contiguous tool-result run (`run` already in
oldest-first order).  On leaving a run the one assistant entry carrying tool
calls is pulled in; the quota is only consulted at the top of the loop, so a
run and its assistant are collected even past the quota. -/
def truncWalkAux (quota : Nat) : List Msg → Option (List Msg) → List Msg → List Msg
  | [], none, keep => keep
  | [], some run, keep => run ++ keep
  | m :: rest, none, keep =>
    if quota ≤ keep.length then keep
    else if isToolRole m then truncWalkAux quota rest (some [m]) keep
    else truncWalkAux quota rest none (m :: keep)
  | m :: rest, some run, keep =>
    if isToolRole m then truncWalkAux quota rest (some (m :: run)) keep
    else if isAssistantWithCalls m then truncWalkAux quota rest none (m :: (run ++ keep))
    else
      if quota ≤ (run ++ keep).length then run ++ keep
      else truncWalkAux quota rest none (m :: (run ++ keep))

/-- `smart_truncate_history(conversation_history, max_messages=50)` from
`deepseek-eng-new.py` (lines 265-328): a history within budget is returned
unchanged; otherwise the system entries are filtered and condensed, the
backward walk selects a suffix of the non-system entries (pulling whole tool
runs and their assistant entry), and a final safety check drops the oldest
kept non-system entries when the result still exceeds the budget. -/
def smart_truncate_history (conversation_history : List Msg)
    (max_messages : Nat := 50) : List Msg :=
  if conversation_history.length ≤ max_messages then conversation_history
  else
    let system_messages := importantSystem (conversation_history.filter isSystemRole)
    let other_messages := conversation_history.filter (fun m => !isSystemRole m)
    let keep_messages :=
      truncWalkAux (max_messages - system_messages.length) other_messages.reverse none []
    let result := system_messages ++ keep_messages
    if max_messages < result.length then
      system_messages ++ keep_messages.drop (result.length - max_messages)
    else result

/-- Scan of the causality invariant: walking left to right and remembering
the ids of the tool calls of the nearest preceding assistant entry that
carries tool calls, every tool-role entry's `tool_call_id` must be among
them. -/
def causalScan : List String → List Msg → Bool
  | _, [] => true
  | lastIds, m :: rest =>
    match m.role with
    | Role.tool => lastIds.contains m.tool_call_id && causalScan lastIds rest
    | Role.assistant =>
      if m.tool_calls.isEmpty then causalScan lastIds rest
      else causalScan (m.tool_calls.map (fun tc => tc.id)) rest
    | _ => causalScan lastIds rest

/-- The causality invariant of C4 for a whole history. -/
def causalOK (h : List Msg) : Bool := causalScan [] h

/-- The file-context marker `f"User added file '{file_path}'"`. -/
def fileMarker (file_path : String) : String := "User added file '" ++ file_path ++ "'"

/-- A system entry carrying some file's context. -/
def isSysFileContext (m : Msg) : Bool := isSystemRole m && isFileContext m

/-- The system entries counting as context for one specific path, identified
the way the code identifies them: marker containment. -/
def entryForPath (file_path : String) (m : Msg) : Bool :=
  isSystemRole m && containsSubstr (fileMarker file_path) m.content

/-- The eviction loop of `add_file_context_smartly`: drop the first `k`
file-context system entries, keeping everything else. -/
def removeOldestFileContexts : List Msg → Nat → List Msg
  | [], _ => []
  | m :: rest, 0 => m :: rest
  | m :: rest, Nat.succ k =>
    if isSysFileContext m then removeOldestFileContexts rest k
    else m :: removeOldestFileContexts rest (k + 1)

/-- `add_file_context_smartly(conversation_history, file_path, content,
max_context_files=5)` from `deepseek-eng-new.py` (lines 367-404): remove
every system entry containing this path's marker, evict the oldest
file-context entries down to `max_context_files - 1` when at the cap, then
append the new file-context system entry at the end. -/
def add_file_context_smartly (conversation_history : List Msg)
    (file_path content : String) (max_context_files : Nat := 5) : List Msg :=
  let marker := fileMarker file_path
  let h1 := conversation_history.filter
    (fun m => !(isSystemRole m && containsSubstr marker m.content))
  let file_context_count := (h1.filter isSysFileContext).length
  let h2 :=
    if max_context_files ≤ file_context_count then
      removeOldestFileContexts h1 (file_context_count - max_context_files + 1)
    else h1
  h2 ++ [{ role := Role.system, content := marker ++ ". Content:\n\n" ++ content }]

/-- The turn of the main loop that exercises truncation in C4's failing
trace: an assistant entry carrying ten tool calls (a model may request many
edits in one turn). -/
def c4ToolCalls : List ToolCallRec :=
  (List.range 10).map
    (fun i => { id := "call-" ++ toString i, name := "read_file", arguments := "" })

/-- The ten tool-result entries answering `c4ToolCalls`, in order. -/
def c4ToolResults : List Msg :=
  (List.range 10).map
    (fun i => { role := Role.tool, content := "result", tool_call_id := "call-" ++ toString i })

/-- 24 later user/assistant exchanges (48 entries, none of them tool). -/
def c4Filler : List Msg :=
  (List.replicate 24
    [({ role := Role.user, content := "question" } : Msg),
     ({ role := Role.assistant, content := "answer" } : Msg)]).flatten

/-- A 60-entry history exactly as the main loop builds one: the persona
prompt, one assistant turn with ten tool calls, its ten tool results, then
24 ordinary exchanges. -/
def c4History : List Msg :=
  { role := Role.system, content := "persona" } ::
    ({ role := Role.assistant, content := "", tool_calls := c4ToolCalls } : Msg) ::
      (c4ToolResults ++ c4Filler)

/-- C4 fails on the code: on this main-loop-shaped 60-entry history the
post-turn truncation to `MAX_HISTORY_MESSAGES = 50` enters its final safety
check (`keep_messages[excess:]`), which cuts inside the pulled-in tool run:
the assistant entry carrying the tool calls and nine of its ten results are
dropped while the tenth tool result stays, orphaned, so the causality
invariant no longer holds after truncation. -/
theorem smart_truncate_breaks_causality :
    c4History.length = 60 ∧ causalOK c4History = true ∧
    causalOK (smart_truncate_history c4History 50) = false := by
  decide

lemma takeLastN_of_le (n : Nat) (l : List Msg) (h : l.length ≤ n) : takeLastN n l = l := by
  unfold takeLastN
  rw [Nat.sub_eq_zero_of_le h, List.drop_zero]

lemma takeLastN_length_le (n : Nat) (l : List Msg) : (takeLastN n l).length ≤ n := by
  unfold takeLastN
  rw [List.length_drop]
  omega

lemma mem_takeLastN {m : Msg} {n : Nat} {l : List Msg} (h : m ∈ takeLastN n l) : m ∈ l := by
  unfold takeLastN at h
  exact List.mem_of_mem_drop h

lemma mem_importantSystem {m : Msg} {sys : List Msg} (h : m ∈ importantSystem sys) :
    m ∈ sys := by
  unfold importantSystem at h
  split at h
  · cases sys with
    | nil => cases h
    | cons s0 rest =>
      rcases List.mem_cons.mp h with rfl | h2
      · exact List.mem_cons_self _ _
      · exact List.mem_cons_of_mem _ (List.mem_of_mem_filter (mem_takeLastN h2))
  · exact h

lemma importantSystem_idem (sys : List Msg) :
    importantSystem (importantSystem sys) = importantSystem sys := by
  by_cases h1 : 1 < sys.length
  · cases sys with
    | nil => simp at h1
    | cons s0 rest =>
      have hfirst : importantSystem (s0 :: rest) =
          s0 :: takeLastN 3 (rest.filter isFileContext) := by
        unfold importantSystem
        rw [if_pos h1]
      rw [hfirst]
      by_cases h2 : 1 < (s0 :: takeLastN 3 (rest.filter isFileContext)).length
      · have hfc : (takeLastN 3 (rest.filter isFileContext)).filter isFileContext =
            takeLastN 3 (rest.filter isFileContext) := by
          rw [List.filter_eq_self]
          intro m hm
          exact List.of_mem_filter (mem_takeLastN hm)
        have hsecond : importantSystem (s0 :: takeLastN 3 (rest.filter isFileContext)) =
            s0 :: takeLastN 3
              ((takeLastN 3 (rest.filter isFileContext)).filter isFileContext) := by
          unfold importantSystem
          rw [if_pos h2]
        rw [hsecond, hfc, takeLastN_of_le 3 _ (takeLastN_length_le 3 _)]
      · unfold importantSystem
        rw [if_neg h2]
  · simp [importantSystem, h1]

/-- C5.  `smart_truncate_history` is idempotent: a history within budget is
returned unchanged, and truncating twice with the same budget equals
truncating once. -/
theorem smart_truncate_history_idempotent (h : List Msg) (max_messages : Nat) :
    (h.length ≤ max_messages → smart_truncate_history h max_messages = h) ∧
    smart_truncate_history (smart_truncate_history h max_messages) max_messages =
      smart_truncate_history h max_messages := by
  have hid : ∀ l : List Msg, l.length ≤ max_messages →
      smart_truncate_history l max_messages = l := by
    intro l hl
    unfold smart_truncate_history
    rw [if_pos hl]
  refine ⟨hid h, ?_⟩
  by_cases hle : h.length ≤ max_messages
  · rw [hid h hle, hid h hle]
  · have hf : smart_truncate_history h max_messages =
        (fun S keep =>
          if max_messages < (S ++ keep).length then
            S ++ keep.drop ((S ++ keep).length - max_messages)
          else S ++ keep)
          (importantSystem (h.filter isSystemRole))
          (truncWalkAux (max_messages - (importantSystem (h.filter isSystemRole)).length)
            ((h.filter (fun m => !isSystemRole m)).reverse) none []) := by
      unfold smart_truncate_history
      rw [if_neg hle]
    simp only at hf
    generalize hSdef : importantSystem (h.filter isSystemRole) = S at hf
    generalize hkeepdef :
      truncWalkAux (max_messages - S.length)
        ((h.filter (fun m => !isSystemRole m)).reverse) none [] = keep at hf
    have hsysS : ∀ m ∈ S, isSystemRole m = true := by
      intro m hm
      rw [← hSdef] at hm
      exact List.of_mem_filter (mem_importantSystem hm)
    by_cases hlen : max_messages < (S ++ keep).length
    · rw [hf, if_pos hlen]
      by_cases hR : (S ++ keep.drop ((S ++ keep).length - max_messages)).length ≤ max_messages
      · exact hid _ hR
      · have he : keep.length ≤ (S ++ keep).length - max_messages := by
          rw [List.length_append]
          rw [List.length_append, List.length_drop, List.length_append] at hR
          rw [List.length_append] at hlen
          omega
        rw [List.drop_eq_nil_of_le he] at hR ⊢
        rw [List.append_nil] at hR ⊢
        have hSlen : max_messages < S.length := by omega
        have h1 : S.filter isSystemRole = S := by
          rw [List.filter_eq_self]
          exact hsysS
        have h2 : S.filter (fun m => !isSystemRole m) = [] := by
          rw [List.filter_eq_nil_iff]
          intro m hm
          simp [hsysS m hm]
        have hSidem : importantSystem S = S := by
          have := importantSystem_idem (h.filter isSystemRole)
          rw [hSdef] at this
          exact this
        unfold smart_truncate_history
        rw [if_neg (by omega), h1, h2, hSidem]
        simp only [List.reverse_nil]
        rw [show ∀ q, truncWalkAux q [] none [] = [] from fun q => rfl]
        rw [List.append_nil, if_pos hSlen, List.drop_nil, List.append_nil]
    · rw [hf, if_neg hlen]
      exact hid _ (by omega)

/-- Witness for C5 at a one-entry history and budget 5. -/
theorem smart_truncate_history_idempotent_witness :
    (smart_truncate_history [{ role := Role.system, content := "persona" }] 5 =
      [{ role := Role.system, content := "persona" }]) ∧
    smart_truncate_history
        (smart_truncate_history [{ role := Role.system, content := "persona" }] 5) 5 =
      smart_truncate_history [{ role := Role.system, content := "persona" }] 5 :=
  ⟨(smart_truncate_history_idempotent [{ role := Role.system, content := "persona" }] 5).1
      (by decide),
    (smart_truncate_history_idempotent [{ role := Role.system, content := "persona" }] 5).2⟩

lemma isInfixOfChars_append_left (x y : List Char) :
    ∀ s, isInfixOfChars (x ++ y) s = true → isInfixOfChars x s = true := by
  intro s
  induction s with
  | nil =>
    intro hs
    simp only [isInfixOfChars, List.isEmpty_iff] at hs ⊢
    rcases List.append_eq_nil.mp hs with ⟨hx, _⟩
    exact hx
  | cons c rest ih =>
    intro hs
    rw [isInfixOfChars, Bool.or_eq_true] at hs ⊢
    rcases hs with hs | hs
    · left
      rw [List.isPrefixOf_iff_prefix] at hs ⊢
      exact (List.prefix_append x y).trans hs
    · right
      exact ih hs

lemma isInfixOfChars_of_prefix (x t : List Char) : isInfixOfChars x (x ++ t) = true := by
  cases hx : x ++ t with
  | nil =>
    have hxnil : x = [] := (List.append_eq_nil.mp hx).1
    simp [hxnil, isInfixOfChars]
  | cons c rest =>
    rw [isInfixOfChars, Bool.or_eq_true]
    left
    rw [List.isPrefixOf_iff_prefix, ← hx]
    exact List.prefix_append x t

lemma fileMarker_data (p : String) :
    (fileMarker p).data = "User added file".data ++ (" '".data ++ (p.data ++ "'".data)) := by
  unfold fileMarker
  rw [String.data_append, String.data_append]
  rw [show ("User added file '" : String).data = "User added file".data ++ " '".data
    from by decide]
  simp [List.append_assoc]

/-- A content without the bare marker also lacks every concrete file's
marker, of which the bare marker is a prefix. -/
lemma not_contains_fileMarker (p : String) {s : String}
    (h : containsSubstr "User added file" s = false) :
    containsSubstr (fileMarker p) s = false := by
  unfold containsSubstr at h ⊢
  cases hc : isInfixOfChars (fileMarker p).data s.data with
  | false => rfl
  | true =>
    exfalso
    rw [fileMarker_data] at hc
    rw [isInfixOfChars_append_left _ _ _ hc] at h
    cases h

/-- The content of the entry `add_file_context_smartly` appends contains the
path's marker (it starts with it). -/
lemma new_entry_contains_marker (p c : String) :
    containsSubstr (fileMarker p) (fileMarker p ++ ". Content:\n\n" ++ c) = true := by
  unfold containsSubstr
  rw [String.data_append, String.data_append, List.append_assoc]
  exact isInfixOfChars_of_prefix _ _

/-- The content of the appended entry is a file-context marker carrier. -/
lemma new_entry_isFileContext (p c : String) :
    containsSubstr "User added file" (fileMarker p ++ ". Content:\n\n" ++ c) = true := by
  unfold containsSubstr
  rw [String.data_append, String.data_append, fileMarker_data]
  simp only [List.append_assoc]
  exact isInfixOfChars_of_prefix _ _

lemma removeOldestFileContexts_zero : ∀ l : List Msg, removeOldestFileContexts l 0 = l := by
  intro l
  cases l with
  | nil => rfl
  | cons m rest => rfl

lemma removeOldestFileContexts_sublist :
    ∀ (l : List Msg) (k : Nat), (removeOldestFileContexts l k).Sublist l := by
  intro l
  induction l with
  | nil => intro k; cases k <;> exact List.Sublist.refl _
  | cons m rest ih =>
    intro k
    cases k with
    | zero => exact List.Sublist.refl _
    | succ k =>
      rw [removeOldestFileContexts]
      by_cases hm : isSysFileContext m = true
      · rw [if_pos hm]
        exact List.sublist_cons_of_sublist m (ih k)
      · rw [if_neg hm]
        exact List.Sublist.cons₂ m (ih (k + 1))

lemma removeOldestFileContexts_count :
    ∀ (l : List Msg) (k : Nat), k ≤ (l.filter isSysFileContext).length →
      ((removeOldestFileContexts l k).filter isSysFileContext).length =
        (l.filter isSysFileContext).length - k := by
  intro l
  induction l with
  | nil =>
    intro k hk
    simp only [List.filter_nil, List.length_nil] at hk
    interval_cases k
    simp [removeOldestFileContexts]
  | cons m rest ih =>
    intro k hk
    cases k with
    | zero => rw [removeOldestFileContexts_zero]; omega
    | succ k =>
      rw [removeOldestFileContexts]
      by_cases hm : isSysFileContext m = true
      · rw [if_pos hm]
        rw [List.filter_cons_of_pos hm] at hk ⊢
        rw [List.length_cons] at hk
        rw [ih k (by omega)]
        simp only [List.length_cons]
        omega
      · rw [if_neg hm]
        rw [List.filter_cons_of_neg (by simpa using hm)] at hk ⊢
        rw [List.filter_cons_of_neg (by simpa using hm)]
        exact ih (k + 1) hk

lemma removeOldestFileContexts_cons_safe (m : Msg) (hm : isSysFileContext m = false)
    (rest : List Msg) (k : Nat) :
    removeOldestFileContexts (m :: rest) k = m :: removeOldestFileContexts rest k := by
  cases k with
  | zero => rw [removeOldestFileContexts_zero, removeOldestFileContexts_zero]
  | succ k =>
    rw [removeOldestFileContexts, if_neg (by simp [hm])]

/-- C10 (amended).  After `add_file_context_smartly(history, path, content)`
on a history headed by the persona prompt (a system entry with no file
marker) with a cap of at least one: (1) exactly one entry carries this
path's marker; (2) a distinct path whose marker does not occur in the new
entry's text keeps at most one entry when it had at most one; (3) at most
`max_context_files` file-context entries remain in total; (4) the persona
head entry survives; (5) the new file-context entry is last. -/
theorem add_file_context_smartly_invariants
    (h : List Msg) (file_path content : String) (max_context_files : Nat)
    (hmax : 1 ≤ max_context_files)
    (h0 : Msg) (hhead : h.head? = some h0)
    (hrole : isSystemRole h0 = true)
    (hmark : isFileContext h0 = false) :
    ((add_file_context_smartly h file_path content max_context_files).filter
        (entryForPath file_path)).length = 1 ∧
    (∀ q : String,
      containsSubstr (fileMarker q)
          (fileMarker file_path ++ ". Content:\n\n" ++ content) = false →
      (h.filter (entryForPath q)).length ≤ 1 →
      ((add_file_context_smartly h file_path content max_context_files).filter
          (entryForPath q)).length ≤ 1) ∧
    ((add_file_context_smartly h file_path content max_context_files).filter
        isSysFileContext).length ≤ max_context_files ∧
    (add_file_context_smartly h file_path content max_context_files).head? = some h0 ∧
    (add_file_context_smartly h file_path content max_context_files).getLast? =
      some { role := Role.system,
             content := fileMarker file_path ++ ". Content:\n\n" ++ content } := by
  obtain ⟨t, rfl⟩ : ∃ t, h = h0 :: t := by
    cases h with
    | nil => cases hhead
    | cons a t =>
      refine ⟨t, ?_⟩
      simp only [List.head?_cons, Option.some.injEq] at hhead
      rw [hhead]
  unfold add_file_context_smartly
  simp only
  generalize hh1 : (h0 :: t).filter
      (fun m => !(isSystemRole m && containsSubstr (fileMarker file_path) m.content)) = h1
  -- the new entry's classifications
  have hnewP : entryForPath file_path
      { role := Role.system,
        content := fileMarker file_path ++ ". Content:\n\n" ++ content } = true := by
    unfold entryForPath isSystemRole
    simp [new_entry_contains_marker]
  have hnewFC : isSysFileContext
      { role := Role.system,
        content := fileMarker file_path ++ ". Content:\n\n" ++ content } = true := by
    unfold isSysFileContext isSystemRole isFileContext
    simp [new_entry_isFileContext]
  -- h1 has no entry for this path
  have hh1none : h1.filter (entryForPath file_path) = [] := by
    rw [List.filter_eq_nil_iff]
    intro m hm
    rw [← hh1] at hm
    have h2 := List.of_mem_filter hm
    simp only [entryForPath]
    cases hb : isSystemRole m && containsSubstr (fileMarker file_path) m.content with
    | false => exact Bool.false_ne_true
    | true =>
      rw [hb] at h2
      simp at h2
  -- h1 is headed by h0
  have hh0P : (!(isSystemRole h0 && containsSubstr (fileMarker file_path) h0.content)) = true := by
    rw [not_contains_fileMarker file_path (by simpa [isFileContext] using hmark)]
    simp
  have hh1head : h1 = h0 :: t.filter
      (fun m => !(isSystemRole m && containsSubstr (fileMarker file_path) m.content)) := by
    rw [← hh1]
    exact List.filter_cons_of_pos hh0P
  have hh0FC : isSysFileContext h0 = false := by
    unfold isSysFileContext
    simp [hmark]
  -- case split on the eviction
  by_cases hcap : max_context_files ≤ (h1.filter isSysFileContext).length
  case pos =>
    rw [if_pos hcap]
    generalize hh2 : removeOldestFileContexts h1
      ((h1.filter isSysFileContext).length - max_context_files + 1) = h2
    have hsub : h2.Sublist h1 := by
      rw [← hh2]; exact removeOldestFileContexts_sublist h1 _
    refine ⟨?_, ?_, ?_, ?_, ?_⟩
    · rw [List.filter_append, List.filter_cons_of_pos hnewP]
      have : h2.filter (entryForPath file_path) = [] :=
        List.sublist_nil.mp (hh1none ▸ hsub.filter (entryForPath file_path))
      simp [this]
    · intro q hq hq1
      rw [List.filter_append]
      have hnewq : entryForPath q
          { role := Role.system,
            content := fileMarker file_path ++ ". Content:\n\n" ++ content } = false := by
        unfold entryForPath
        simp [hq]
      rw [List.filter_cons_of_neg (by simp [hnewq]), List.filter_nil, List.append_nil]
      have m1 : (h2.filter (entryForPath q)).length ≤ (h1.filter (entryForPath q)).length :=
        (hsub.filter _).length_le
      have m2 : (h1.filter (entryForPath q)).length ≤
          (((h0 :: t)).filter (entryForPath q)).length := by
        rw [← hh1]
        exact ((List.filter_sublist _).filter _).length_le
      omega
    · rw [List.filter_append, List.filter_cons_of_pos hnewFC, List.length_append]
      have hcount : (h2.filter isSysFileContext).length = max_context_files - 1 := by
        rw [← hh2, removeOldestFileContexts_count h1 _ (by omega)]
        omega
      simp only [List.filter_nil, List.length_cons, List.length_nil]
      omega
    · have hh2head : ∃ u, h2 = h0 :: u := by
        rw [← hh2, hh1head, removeOldestFileContexts_cons_safe h0 hh0FC]
        exact ⟨_, rfl⟩
      obtain ⟨u, hu⟩ := hh2head
      rw [hu]
      rfl
    · exact List.getLast?_concat _
  case neg =>
    rw [if_neg hcap]
    refine ⟨?_, ?_, ?_, ?_, ?_⟩
    · rw [List.filter_append, List.filter_cons_of_pos hnewP]
      simp [hh1none]
    · intro q hq hq1
      rw [List.filter_append]
      have hnewq : entryForPath q
          { role := Role.system,
            content := fileMarker file_path ++ ". Content:\n\n" ++ content } = false := by
        unfold entryForPath
        simp [hq]
      rw [List.filter_cons_of_neg (by simp [hnewq]), List.filter_nil, List.append_nil]
      have m2 : (h1.filter (entryForPath q)).length ≤
          ((h0 :: t).filter (entryForPath q)).length := by
        rw [← hh1]
        exact ((List.filter_sublist _).filter _).length_le
      omega
    · rw [List.filter_append, List.filter_cons_of_pos hnewFC, List.length_append]
      simp only [List.filter_nil, List.length_cons, List.length_nil]
      omega
    · rw [hh1head]
      rfl
    · exact List.getLast?_concat _

/-- Witness for C10's amended theorem: adding a file to the bare persona
history. -/
theorem add_file_context_smartly_invariants_witness :
    ((add_file_context_smartly [{ role := Role.system, content := "persona" }] "/x/a" "ca" 5).filter
        (entryForPath "/x/a")).length = 1 ∧
    (∀ q : String,
      containsSubstr (fileMarker q) (fileMarker "/x/a" ++ ". Content:\n\n" ++ "ca") = false →
      (([{ role := Role.system, content := "persona" }] : List Msg).filter
          (entryForPath q)).length ≤ 1 →
      ((add_file_context_smartly [{ role := Role.system, content := "persona" }] "/x/a" "ca" 5).filter
          (entryForPath q)).length ≤ 1) ∧
    ((add_file_context_smartly [{ role := Role.system, content := "persona" }] "/x/a" "ca" 5).filter
        isSysFileContext).length ≤ 5 ∧
    (add_file_context_smartly [{ role := Role.system, content := "persona" }] "/x/a" "ca" 5).head? =
      some { role := Role.system, content := "persona" } ∧
    (add_file_context_smartly [{ role := Role.system, content := "persona" }] "/x/a" "ca" 5).getLast? =
      some { role := Role.system, content := fileMarker "/x/a" ++ ". Content:\n\n" ++ "ca" } :=
  add_file_context_smartly_invariants [{ role := Role.system, content := "persona" }]
    "/x/a" "ca" 5 (by decide) { role := Role.system, content := "persona" }
    (by decide) (by decide) (by decide)

/-- C10 fails as stated: paths may contain apostrophes, and the marker of
`/x/a` is then a substring of the marker line of `/x/a'b`, so after adding
both files two system entries contain the marker of `/x/a` — the per-path
uniqueness the dedup step aims for is broken by marker containment, not by
duplicate adds. -/
theorem add_file_context_per_path_counterexample :
    ((add_file_context_smartly
        (add_file_context_smartly [{ role := Role.system, content := "persona" }] "/x/a" "ca" 5)
        "/x/a'b" "cb" 5).filter (entryForPath "/x/a")).length = 2 := by
  decide

/-! ## 5. Git context and the git operations

The git subprocesses are embedded through an oracle `GitWorld` describing
the machine: whether the `git` executable exists (absence makes every
`subprocess.run(["git", ...])` raise `FileNotFoundError`), what exists on
disk, and how the individual git invocations would come out.  Each operation
returns the new world, the new `git_context`, its textual output (collapsed
to its distinguishing prefix where no claim consults it), and the trace of
git subprocess invocations it attempted, in order. -/

/-- The process-wide `git_context` dict. -/
structure GitContextState where
  enabled : Bool
  skip_staging : Bool
  branch : Option String
deriving DecidableEq, Repr

/-- The machine state the git subprocesses consult.  `hasStaged` is whether
`git diff --staged --quiet` exits non-zero (for `user_commit_changes`, after
its `git add -A`); `promptYes` is the answer given to interactive y/n
prompts. -/
structure GitWorld where
  gitAvailable : Bool
  dotGitExists : Bool
  gitignoreExists : Bool
  hasStaged : Bool
  currentBranch : String
  defaultBranch : String
  commitSucceeds : Bool
  lastCommitLine : String
  porcelain : List (String × String)
  existingBranches : List String
  stageSucceeds : Bool
  statusFails : Bool
  initFails : Bool
  checkoutFails : Bool
  promptYes : Bool
deriving DecidableEq, Repr

/-- A git subprocess invocation. -/
inductive GitCmd
  | diffStagedQuiet
  | commitCmd (message : String)
  | logLast
  | addPath (path : String)
  | addAll
  | initRepo
  | revParseHead
  | showCurrent
  | statusPorcelain
  | revParseVerify (branch : String)
  | branchList (branch : String)
  | checkout (branch : String)
  | checkoutNew (branch : String)
deriving DecidableEq, Repr

/-- Result of one git-touching operation. -/
structure GitStepResult where
  world : GitWorld
  ctx : GitContextState
  output : String
  cmds : List GitCmd
deriving DecidableEq, Repr

/-- Result of `get_git_status_porcelain` (it returns a pair, not a string). -/
structure PorcelainResult where
  world : GitWorld
  ctx : GitContextState
  has_changes : Bool
  files : List (String × String)
  cmds : List GitCmd
deriving DecidableEq, Repr

/-- `get_git_status_porcelain()` (lines 721-734): disabled → `(False, [])`
with no subprocess; `FileNotFoundError` → prints, flips `enabled` off;
`CalledProcessError` or clean output → `(False, [])`; otherwise the parsed
porcelain lines. -/
def get_git_status_porcelain (w : GitWorld) (ctx : GitContextState) : PorcelainResult :=
  if !ctx.enabled then
    { world := w, ctx := ctx, has_changes := false, files := [], cmds := [] }
  else if !w.gitAvailable then
    { world := w, ctx := { ctx with enabled := false }, has_changes := false, files := [],
      cmds := [GitCmd.statusPorcelain] }
  else if w.statusFails then
    { world := w, ctx := ctx, has_changes := false, files := [],
      cmds := [GitCmd.statusPorcelain] }
  else if w.porcelain.isEmpty then
    { world := w, ctx := ctx, has_changes := false, files := [],
      cmds := [GitCmd.statusPorcelain] }
  else
    { world := w, ctx := ctx, has_changes := true, files := w.porcelain,
      cmds := [GitCmd.statusPorcelain] }

/-- `stage_file(file_path_str)` (lines 701-719).  Its `except Exception`
catch-all swallows a `FileNotFoundError` from the subprocess call: staging
reports failure but does NOT flip `enabled` off. -/
def stage_file (w : GitWorld) (ctx : GitContextState) (file_path : String) :
    GitWorld × GitContextState × Bool × List GitCmd :=
  if !ctx.enabled || ctx.skip_staging then (w, ctx, false, [])
  else if !w.gitAvailable then (w, ctx, false, [GitCmd.addPath file_path])
  else if w.stageSucceeds then (w, ctx, true, [GitCmd.addPath file_path])
  else (w, ctx, false, [GitCmd.addPath file_path])

/-- `user_commit_changes(message)` (lines 736-764): stage everything, check
for staged changes, commit.  `FileNotFoundError` flips `enabled` off. -/
def user_commit_changes (w : GitWorld) (ctx : GitContextState) (message : String) :
    GitStepResult :=
  if !ctx.enabled then
    { world := w, ctx := ctx, output := "Git not enabled.", cmds := [] }
  else if !w.gitAvailable then
    { world := w, ctx := { ctx with enabled := false },
      output := "Git error: git executable not found", cmds := [GitCmd.addAll] }
  else if !w.hasStaged then
    { world := w, ctx := ctx, output := "No changes staged for commit.",
      cmds := [GitCmd.addAll, GitCmd.diffStagedQuiet] }
  else if w.commitSucceeds then
    { world := { w with hasStaged := false }, ctx := ctx,
      output := "Committed: " ++ message,
      cmds := [GitCmd.addAll, GitCmd.diffStagedQuiet, GitCmd.commitCmd message, GitCmd.logLast] }
  else
    { world := w, ctx := ctx, output := "Commit failed",
      cmds := [GitCmd.addAll, GitCmd.diffStagedQuiet, GitCmd.commitCmd message] }

/-- `initialize_git_repo_cmd()` (lines 766-788), the `/git init` command.
An existing `.git` directory enables git with no subprocess at all; success
enables git and records the branch; `FileNotFoundError` disables git;
`CalledProcessError` leaves the context alone.  The interactive
`.gitignore`/initial-commit follow-ups touch no `git_context` field and are
collapsed. -/
def initialize_git_repo_cmd (w : GitWorld) (ctx : GitContextState) : GitStepResult :=
  if w.dotGitExists then
    { world := w, ctx := { ctx with enabled := true },
      output := "Git repo already exists.", cmds := [] }
  else if !w.gitAvailable then
    { world := w, ctx := { ctx with enabled := false },
      output := "Failed to init Git: git executable not found", cmds := [GitCmd.initRepo] }
  else if w.initFails then
    { world := w, ctx := ctx, output := "Failed to init Git: git init failed",
      cmds := [GitCmd.initRepo] }
  else
    { world := { w with dotGitExists := true, gitignoreExists := true },
      ctx := { ctx with enabled := true, branch := some w.defaultBranch },
      output := "Initialized Git repo", cmds := [GitCmd.initRepo, GitCmd.revParseHead] }

/-- `create_git_branch_cmd(branch_name)` (lines 790-815), the `/git branch`
command.  The switch-confirmation prompt is answered by `promptYes`. -/
def create_git_branch_cmd (w : GitWorld) (ctx : GitContextState) (branch_name : String) :
    GitStepResult :=
  if !ctx.enabled then
    { world := w, ctx := ctx, output := "Git not enabled.", cmds := [] }
  else if branch_name == "" then
    { world := w, ctx := ctx, output := "Branch name empty.", cmds := [] }
  else if !w.gitAvailable then
    { world := w, ctx := { ctx with enabled := false },
      output := "Branch op failed: git executable not found",
      cmds := [GitCmd.branchList branch_name] }
  else if w.existingBranches.contains branch_name then
    if w.currentBranch == branch_name || !w.promptYes then
      { world := w, ctx := ctx, output := "Branch exists.",
        cmds := [GitCmd.branchList branch_name, GitCmd.showCurrent] }
    else if w.checkoutFails then
      { world := w, ctx := ctx, output := "Branch op failed: checkout failed",
        cmds := [GitCmd.branchList branch_name, GitCmd.showCurrent, GitCmd.checkout branch_name] }
    else
      { world := { w with currentBranch := branch_name },
        ctx := { ctx with branch := some branch_name },
        output := "Switched to branch '" ++ branch_name ++ "'",
        cmds := [GitCmd.branchList branch_name, GitCmd.showCurrent, GitCmd.checkout branch_name] }
  else if w.checkoutFails then
    { world := w, ctx := ctx, output := "Branch op failed: checkout failed",
      cmds := [GitCmd.branchList branch_name, GitCmd.checkoutNew branch_name] }
  else
    { world :=
        { w with
          currentBranch := branch_name
          existingBranches := branch_name :: w.existingBranches },
      ctx := { ctx with branch := some branch_name },
      output := "Created & switched to new branch '" ++ branch_name ++ "'",
      cmds := [GitCmd.branchList branch_name, GitCmd.checkoutNew branch_name] }

/-- `show_git_status_cmd()` (lines 817-843), the `/git status` command: the
porcelain helper runs first (and alone handles a missing binary), then the
uncaught branch query; the rendering of the status table is collapsed. -/
def show_git_status_cmd (w : GitWorld) (ctx : GitContextState) : GitStepResult :=
  if !ctx.enabled then
    { world := w, ctx := ctx, output := "Git not enabled.", cmds := [] }
  else
    let r := get_git_status_porcelain w ctx
    { world := r.world, ctx := r.ctx, output := "status shown",
      cmds := r.cmds ++ [GitCmd.showCurrent] }

/-- `llm_git_init()` (lines 846-864).  An existing `.git` directory enables
git and returns without any subprocess; `FileNotFoundError` disables git;
`CalledProcessError` leaves the context alone.  The `.gitignore`
scaffolding/staging touches no `git_context` field and is collapsed into
the world's `gitignoreExists` flag. -/
def llm_git_init (w : GitWorld) (ctx : GitContextState) : GitStepResult :=
  if w.dotGitExists then
    { world := w, ctx := { ctx with enabled := true },
      output := "Git repository already exists.", cmds := [] }
  else if !w.gitAvailable then
    { world := w, ctx := { ctx with enabled := false },
      output := "Failed to initialize Git repository: git executable not found",
      cmds := [GitCmd.initRepo] }
  else if w.initFails then
    { world := w, ctx := ctx,
      output := "Failed to initialize Git repository: git init failed",
      cmds := [GitCmd.initRepo] }
  else
    { world := { w with dotGitExists := true, gitignoreExists := true },
      ctx := { ctx with enabled := true, branch := some w.defaultBranch },
      output := "Git repository initialized successfully (branch: " ++ w.defaultBranch ++ ").",
      cmds := [GitCmd.initRepo, GitCmd.revParseHead] }

/-- `llm_git_add(file_paths)` (lines 866-884): per-path best-effort staging
through `stage_file`, which never mutates the context or the world; the
aggregated message is collapsed to its success/failure head. -/
def llm_git_add (w : GitWorld) (ctx : GitContextState) (file_paths : List String) :
    GitStepResult :=
  if !ctx.enabled then
    { world := w, ctx := ctx, output := "Git not initialized.", cmds := [] }
  else if file_paths.isEmpty then
    { world := w, ctx := ctx, output := "No file paths to stage.", cmds := [] }
  else if ctx.skip_staging then
    { world := w, ctx := ctx, output := "Failed to stage: all paths.", cmds := [] }
  else if w.gitAvailable && w.stageSucceeds then
    { world := w, ctx := ctx, output := "Staged: " ++ String.intercalate ", " file_paths ++ ".",
      cmds := file_paths.map GitCmd.addPath }
  else
    { world := w, ctx := ctx,
      output := "Failed to stage: " ++ String.intercalate ", " file_paths ++ ".",
      cmds := file_paths.map GitCmd.addPath }

/-- `llm_git_commit(message)` (lines 886-903): disabled or empty message
return textually with no subprocess; otherwise the staged-changes check
runs first, and only when it reports staged changes does `git commit`
run.  `FileNotFoundError` disables git. -/
def llm_git_commit (w : GitWorld) (ctx : GitContextState) (message : String) :
    GitStepResult :=
  if !ctx.enabled then
    { world := w, ctx := ctx, output := "Git not initialized.", cmds := [] }
  else if message == "" then
    { world := w, ctx := ctx, output := "Commit message empty.", cmds := [] }
  else if !w.gitAvailable then
    { world := w, ctx := { ctx with enabled := false },
      output := "Git commit error: git executable not found",
      cmds := [GitCmd.diffStagedQuiet] }
  else if !w.hasStaged then
    { world := w, ctx := ctx, output := "No changes staged. Use git_add first.",
      cmds := [GitCmd.diffStagedQuiet] }
  else if w.commitSucceeds then
    { world := { w with hasStaged := false }, ctx := ctx,
      output := "Committed. Commit: " ++ w.lastCommitLine,
      cmds := [GitCmd.diffStagedQuiet, GitCmd.commitCmd message, GitCmd.logLast] }
  else
    { world := w, ctx := ctx, output := "Failed to commit: commit failed",
      cmds := [GitCmd.diffStagedQuiet, GitCmd.commitCmd message] }

/-- `llm_git_create_branch(branch_name)` (lines 905-923). -/
def llm_git_create_branch (w : GitWorld) (ctx : GitContextState) (branch_name : String) :
    GitStepResult :=
  if !ctx.enabled then
    { world := w, ctx := ctx, output := "Git not initialized.", cmds := [] }
  else
    let bn := branch_name.trim
    if bn == "" then
      { world := w, ctx := ctx, output := "Branch name empty.", cmds := [] }
    else if !w.gitAvailable then
      { world := w, ctx := { ctx with enabled := false },
        output := "Branch op failed for '" ++ bn ++ "': git executable not found",
        cmds := [GitCmd.revParseVerify bn] }
    else if w.existingBranches.contains bn then
      if w.currentBranch == bn then
        { world := w, ctx := ctx, output := "Already on branch '" ++ bn ++ "'.",
          cmds := [GitCmd.revParseVerify bn, GitCmd.showCurrent] }
      else if w.checkoutFails then
        { world := w, ctx := ctx,
          output := "Branch op failed for '" ++ bn ++ "': checkout failed",
          cmds := [GitCmd.revParseVerify bn, GitCmd.showCurrent, GitCmd.checkout bn] }
      else
        { world := { w with currentBranch := bn }, ctx := { ctx with branch := some bn },
          output := "Branch '" ++ bn ++ "' exists. Switched to it.",
          cmds := [GitCmd.revParseVerify bn, GitCmd.showCurrent, GitCmd.checkout bn] }
    else if w.checkoutFails then
      { world := w, ctx := ctx,
        output := "Branch op failed for '" ++ bn ++ "': checkout failed",
        cmds := [GitCmd.revParseVerify bn, GitCmd.checkoutNew bn] }
    else
      { world :=
          { w with
            currentBranch := bn
            existingBranches := bn :: w.existingBranches },
        ctx := { ctx with branch := some bn },
        output := "Created & switched to new branch '" ++ bn ++ "'.",
        cmds := [GitCmd.revParseVerify bn, GitCmd.checkoutNew bn] }

/-- `llm_git_status()` (lines 925-945); the staged/unstaged/untracked
listing text is collapsed.  `FileNotFoundError` at the branch query disables
git. -/
def llm_git_status (w : GitWorld) (ctx : GitContextState) : GitStepResult :=
  if !ctx.enabled then
    { world := w, ctx := ctx, output := "Git not initialized.", cmds := [] }
  else if !w.gitAvailable then
    { world := w, ctx := { ctx with enabled := false },
      output := "Git status error: git executable not found", cmds := [GitCmd.showCurrent] }
  else
    let bname := if w.currentBranch == "" then "detached HEAD" else w.currentBranch
    let r := get_git_status_porcelain w ctx
    if !r.has_changes then
      { world := r.world, ctx := r.ctx,
        output := "On branch '" ++ bname ++ "'. Working tree clean.",
        cmds := GitCmd.showCurrent :: r.cmds }
    else
      { world := r.world, ctx := r.ctx, output := "On branch '" ++ bname ++ "'. Changes listed.",
        cmds := GitCmd.showCurrent :: r.cmds }

/-- Every mid-session operation that consults git or the git context (the
`/commit`, `/git ...` command wrappers only read `enabled` before
delegating to the operations listed here). -/
inductive SessionOp
  | opStatusPorcelain
  | opStageFile (file_path : String)
  | opUserCommit (message : String)
  | opLlmGitInit
  | opLlmGitAdd (file_paths : List String)
  | opLlmGitCommit (message : String)
  | opLlmGitCreateBranch (branch_name : String)
  | opLlmGitStatus
  | opInitRepoCmd
  | opCreateBranchCmd (branch_name : String)
  | opShowStatusCmd
deriving DecidableEq, Repr

/-- The world/context transition of one session operation. -/
def session_step (w : GitWorld) (ctx : GitContextState) :
    SessionOp → GitWorld × GitContextState
  | SessionOp.opStatusPorcelain =>
    ((get_git_status_porcelain w ctx).world, (get_git_status_porcelain w ctx).ctx)
  | SessionOp.opStageFile p => ((stage_file w ctx p).1, (stage_file w ctx p).2.1)
  | SessionOp.opUserCommit msg =>
    ((user_commit_changes w ctx msg).world, (user_commit_changes w ctx msg).ctx)
  | SessionOp.opLlmGitInit => ((llm_git_init w ctx).world, (llm_git_init w ctx).ctx)
  | SessionOp.opLlmGitAdd fps => ((llm_git_add w ctx fps).world, (llm_git_add w ctx fps).ctx)
  | SessionOp.opLlmGitCommit msg =>
    ((llm_git_commit w ctx msg).world, (llm_git_commit w ctx msg).ctx)
  | SessionOp.opLlmGitCreateBranch b =>
    ((llm_git_create_branch w ctx b).world, (llm_git_create_branch w ctx b).ctx)
  | SessionOp.opLlmGitStatus => ((llm_git_status w ctx).world, (llm_git_status w ctx).ctx)
  | SessionOp.opInitRepoCmd =>
    ((initialize_git_repo_cmd w ctx).world, (initialize_git_repo_cmd w ctx).ctx)
  | SessionOp.opCreateBranchCmd b =>
    ((create_git_branch_cmd w ctx b).world, (create_git_branch_cmd w ctx b).ctx)
  | SessionOp.opShowStatusCmd =>
    ((show_git_status_cmd w ctx).world, (show_git_status_cmd w ctx).ctx)

/-- A concrete world with the git binary present, a repository and nothing
staged. -/
def sampleWorld : GitWorld :=
  { gitAvailable := true, dotGitExists := true, gitignoreExists := true, hasStaged := false,
    currentBranch := "main", defaultBranch := "main", commitSucceeds := true,
    lastCommitLine := "abc123 msg", porcelain := [], existingBranches := ["main"],
    stageSucceeds := true, statusFails := false, initFails := false, checkoutFails := false,
    promptYes := true }

/-- C8 (amended).  A git operation that specifically catches
`FileNotFoundError` — here the status helper the claim cites — flips
`enabled` off when the git binary is absent, and once `enabled` is off every
session operation other than the two init operations leaves it off;
`llm_git_init` and `initialize_git_repo_cmd` are the exceptions, re-enabling
git whenever `.git` exists or initialization succeeds. -/
theorem git_disabled_sticky_except_init :
    (∀ (w : GitWorld) (ctx : GitContextState), ctx.enabled = true → w.gitAvailable = false →
      (get_git_status_porcelain w ctx).ctx.enabled = false) ∧
    (∀ (w : GitWorld) (ctx : GitContextState) (op : SessionOp), ctx.enabled = false →
      op ≠ SessionOp.opLlmGitInit → op ≠ SessionOp.opInitRepoCmd →
      (session_step w ctx op).2.enabled = false) := by
  constructor
  · intro w ctx hen hav
    unfold get_git_status_porcelain
    rw [hen, hav]
    simp
  · intro w ctx op hdis h1 h2
    cases op with
    | opStatusPorcelain => simp [session_step, get_git_status_porcelain, hdis]
    | opStageFile p => simp [session_step, stage_file, hdis]
    | opUserCommit msg => simp [session_step, user_commit_changes, hdis]
    | opLlmGitInit => exact absurd rfl h1
    | opLlmGitAdd fps => simp [session_step, llm_git_add, hdis]
    | opLlmGitCommit msg => simp [session_step, llm_git_commit, hdis]
    | opLlmGitCreateBranch b => simp [session_step, llm_git_create_branch, hdis]
    | opLlmGitStatus => simp [session_step, llm_git_status, hdis]
    | opInitRepoCmd => exact absurd rfl h2
    | opCreateBranchCmd b => simp [session_step, create_git_branch_cmd, hdis]
    | opShowStatusCmd => simp [session_step, show_git_status_cmd, hdis]

/-- Witness for C8's amended theorem: the binary disappears during a status
check, and a later commit attempt does not re-enable git. -/
theorem git_disabled_sticky_except_init_witness :
    (get_git_status_porcelain { sampleWorld with gitAvailable := false }
      { enabled := true, skip_staging := false, branch := some "main" }).ctx.enabled = false ∧
    (session_step sampleWorld { enabled := false, skip_staging := false, branch := none }
      (SessionOp.opLlmGitCommit "msg")).2.enabled = false :=
  ⟨git_disabled_sticky_except_init.1 { sampleWorld with gitAvailable := false }
      { enabled := true, skip_staging := false, branch := some "main" } rfl rfl,
    git_disabled_sticky_except_init.2 sampleWorld
      { enabled := false, skip_staging := false, branch := none }
      (SessionOp.opLlmGitCommit "msg") rfl (by decide) (by decide)⟩

/-- C8 fails as stated: with git already disabled (say, after a detected
missing binary), `llm_git_init` finding an existing `.git` directory sets
`enabled` back to `True` without touching the git executable — a later
operation does re-enable git for the session. -/
theorem git_reenabled_by_init_counterexample :
    (llm_git_init sampleWorld
      { enabled := false, skip_staging := false, branch := none }).ctx.enabled = true := by
  decide

/-- C9.  With git enabled, a working binary, a non-empty message and nothing
staged, `llm_git_commit` returns the textual no-op result, leaves the git
context and the world untouched, and spawns only the staged-changes check —
never `git commit`. -/
theorem llm_git_commit_nothing_staged (w : GitWorld) (ctx : GitContextState) (message : String)
    (hen : ctx.enabled = true) (hmsg : (message == "") = false)
    (hav : w.gitAvailable = true) (hst : w.hasStaged = false) :
    llm_git_commit w ctx message =
      { world := w, ctx := ctx, output := "No changes staged. Use git_add first.",
        cmds := [GitCmd.diffStagedQuiet] } := by
  unfold llm_git_commit
  rw [hen, hmsg, hav, hst]
  simp

/-- Witness for C9 at the concrete sample world. -/
theorem llm_git_commit_nothing_staged_witness :
    llm_git_commit sampleWorld { enabled := true, skip_staging := false, branch := some "main" }
        "fix parser" =
      { world := sampleWorld,
        ctx := { enabled := true, skip_staging := false, branch := some "main" },
        output := "No changes staged. Use git_add first.",
        cmds := [GitCmd.diffStagedQuiet] } :=
  llm_git_commit_nothing_staged sampleWorld
    { enabled := true, skip_staging := false, branch := some "main" } "fix parser"
    rfl (by decide) (by decide) (by decide)

/-! ## 6. Tool dispatcher (`execute_function_call_dict`, lines 948-1004)

The dispatcher body runs in an exception monad (`Except PyExc`) mirroring
what the Python body can raise; the outer `except` handlers convert every
exception to a textual result, so the exported dispatcher is a total
function into a string.  `json.loads` stays the abstract parser argument. -/

/-- The structured values `json.loads` can produce. -/
inductive Json
  | null
  | bool (b : Bool)
  | num (n : Int)
  | str (s : String)
  | arr (elems : List Json)
  | obj (fields : List (String × Json))

/-- The exceptions the dispatcher body can raise, all subclasses of Python's
`Exception` (so `except Exception` catches every one of them). -/
inductive PyExc
  | jsonDecode
  | keyError (key : String)
  | typeError
  | valueError (message : String)
  | fileNotFound
deriving DecidableEq, Repr

/-- `args[key]`: `KeyError` on a missing key, `TypeError`-ish on a non-dict. -/
def jsonGet (j : Json) (key : String) : Except PyExc Json :=
  match j with
  | Json.obj fields =>
    match fields.find? (fun kv => kv.1 == key) with
    | some kv => Except.ok kv.2
    | none => Except.error (PyExc.keyError key)
  | _ => Except.error PyExc.typeError

/-- `args.get(key, default)`: never raises on a dict; on a non-dict Python
raises `AttributeError`, another `Exception` subclass, embedded as
`typeError`. -/
def jsonGetD (j : Json) (key : String) (dflt : Json) : Except PyExc Json :=
  match j with
  | Json.obj fields =>
    match fields.find? (fun kv => kv.1 == key) with
    | some kv => Except.ok kv.2
    | none => Except.ok dflt
  | _ => Except.error PyExc.typeError

/-- A value used where Python needs `str` (e.g. inside `Path(...)`); any
other shape raises `TypeError` downstream. -/
def asString : Json → Except PyExc String
  | Json.str s => Except.ok s
  | _ => Except.error PyExc.typeError

/-- A value iterated as a list of path strings; a non-list or a non-string
element raises `TypeError` downstream (before any state effect). -/
def asStringList : Json → Except PyExc (List String)
  | Json.arr elems =>
    elems.foldr
      (fun e acc =>
        match asString e, acc with
        | Except.ok s, Except.ok rest => Except.ok (s :: rest)
        | Except.error err, _ => Except.error err
        | _, Except.error err => Except.error err)
      (Except.ok [])
  | _ => Except.error PyExc.typeError

/-- The process state the dispatcher touches: the filesystem, the
conversation history (through `ensure_file_in_context`), and the git
world/context. -/
structure AppState where
  fs : FileSystem
  history : List Msg
  world : GitWorld
  gctx : GitContextState
deriving DecidableEq, Repr

/-- The ten operation names the dispatcher knows. -/
def knownFunctionNames : List String :=
  ["read_file", "read_multiple_files", "create_file", "create_multiple_files", "edit_file",
   "git_init", "git_add", "git_commit", "git_create_branch", "git_status"]

/-- One entry of `create_multiple_files`' per-file loop: its local
`except Exception` renders every failure as an error string, so the loop
itself never raises. -/
def createOneFile (acc : FileSystem × List String × List String) (e : Json) :
    FileSystem × List String × List String :=
  match jsonGet e "path", jsonGet e "content" with
  | Except.ok (Json.str p), Except.ok (Json.str c) =>
    match create_file acc.1 p c.data with
    | Except.ok fs2 => (fs2, acc.2.1 ++ [p], acc.2.2)
    | Except.error _ => (acc.1, acc.2.1, acc.2.2 ++ ["Error creating " ++ p])
  | _, _ => (acc.1, acc.2.1, acc.2.2 ++ ["Error creating ?path"])

/-- The body of `execute_function_call_dict` before its `except` handlers:
parse the arguments, dispatch on the function name, raise on malformed
input.  Every `Except.error` leaves the state as it was (each branch
mutates only after its fallible lookups, and the per-item loops catch their
own failures). -/
def execute_inner (parse : String → Option Json) (st : AppState) (tc : ToolCallRec) :
    Except PyExc (AppState × String) := do
  let args ← match parse tc.arguments with
    | some j => Except.ok j
    | none => Except.error PyExc.jsonDecode
  if tc.name == "read_file" then
    let path ← asString (← jsonGet args "file_path")
    match fsRead st.fs path with
    | none => Except.error PyExc.fileNotFound
    | some content =>
      Except.ok (st, "Content of file '" ++ path ++ "':\n\n" ++ String.mk content)
  else if tc.name == "read_multiple_files" then
    let fps ← asStringList (← jsonGet args "file_paths")
    let results := fps.map (fun p =>
      match fsRead st.fs p with
      | none => "Error reading '" ++ p ++ "': file not found"
      | some content => "Content of '" ++ p ++ "':\n\n" ++ String.mk content)
    Except.ok (st,
      "\n\n==================== FILE SEP ====================" ++
        String.intercalate "\n\n" results)
  else if tc.name == "create_file" then
    let path ← asString (← jsonGet args "file_path")
    let content ← asString (← jsonGet args "content")
    match create_file st.fs path content.data with
    | Except.ok fs2 =>
      Except.ok ({ st with fs := fs2 }, "File '" ++ path ++ "' created/updated.")
    | Except.error CreateError.homeRef =>
      Except.error (PyExc.valueError "Home directory references not allowed")
    | Except.error CreateError.tooLarge =>
      Except.error (PyExc.valueError "File content exceeds size limit")
  else if tc.name == "create_multiple_files" then
    let files ← jsonGet args "files"
    match files with
    | Json.arr elems =>
      let r := elems.foldl createOneFile (st.fs, [], [])
      let parts :=
        (if r.2.1.isEmpty then [] else
          ["Created/updated " ++ toString r.2.1.length ++ " files: " ++
            String.intercalate ", " r.2.1]) ++
        (if r.2.2.isEmpty then [] else ["Errors: " ++ String.intercalate "; " r.2.2])
      Except.ok ({ st with fs := r.1 },
        if parts.isEmpty then "No files processed." else String.intercalate ". " parts)
    | _ => Except.error PyExc.typeError
  else if tc.name == "edit_file" then
    let fp ← asString (← jsonGet args "file_path")
    match fsRead st.fs fp with
    | none => Except.ok (st, "Error: Could not read file '" ++ fp ++ "' for editing.")
    | some content =>
      let st2 :=
        if st.history.any
            (fun m => isSystemRole m && containsSubstr (fileMarker fp) m.content) then st
        else { st with history := add_file_context_smartly st.history fp (String.mk content) 5 }
      match jsonGet args "original_snippet", jsonGet args "new_snippet" with
      | Except.ok (Json.str os), Except.ok (Json.str ns) =>
        let r := apply_diff_edit st2.fs fp os.data ns.data
        Except.ok ({ st2 with fs := r.1 }, "Edit attempt on '" ++ fp ++ "'. Check console.")
      | _, _ =>
        Except.ok (st2, "Error during edit_file call for '" ++ fp ++ "'.")
  else if tc.name == "git_init" then
    let r := llm_git_init st.world st.gctx
    Except.ok ({ st with world := r.world, gctx := r.ctx }, r.output)
  else if tc.name == "git_add" then
    let fps ← asStringList (← jsonGetD args "file_paths" (Json.arr []))
    let r := llm_git_add st.world st.gctx fps
    Except.ok ({ st with world := r.world, gctx := r.ctx }, r.output)
  else if tc.name == "git_commit" then
    let msg ← asString (← jsonGetD args "message" (Json.str "Auto commit"))
    let r := llm_git_commit st.world st.gctx msg
    Except.ok ({ st with world := r.world, gctx := r.ctx }, r.output)
  else if tc.name == "git_create_branch" then
    let bn ← asString (← jsonGetD args "branch_name" (Json.str ""))
    let r := llm_git_create_branch st.world st.gctx bn
    Except.ok ({ st with world := r.world, gctx := r.ctx }, r.output)
  else if tc.name == "git_status" then
    let r := llm_git_status st.world st.gctx
    Except.ok ({ st with world := r.world, gctx := r.ctx }, r.output)
  else
    Except.ok (st, "Unknown LLM function: " ++ tc.name)

/-- The `except` handlers at the bottom of `execute_function_call_dict`:
`json.JSONDecodeError`, `KeyError`, and the catch-all `except Exception`.
Every exception the body raises is one of `PyExc`'s constructors, so this
conversion to a textual result is total: the dispatcher never raises past
its boundary. -/
def renderToolError (func_name : String) : PyExc → String
  | PyExc.jsonDecode => "Error: Invalid JSON args for " ++ func_name ++ "."
  | PyExc.keyError k => "Error: Missing param for " ++ func_name ++ " (KeyError: '" ++ k ++ "')."
  | PyExc.typeError => "Unexpected error in " ++ func_name ++ ": TypeError"
  | PyExc.valueError m => "Unexpected error in " ++ func_name ++ ": " ++ m
  | PyExc.fileNotFound => "Unexpected error in " ++ func_name ++ ": file not found"

/-- `execute_function_call_dict(tool_call_dict)`: the body with its handlers
wrapped around it — always a textual result, never an exception. -/
def execute_function_call_dict (parse : String → Option Json) (st : AppState)
    (tc : ToolCallRec) : AppState × String :=
  match execute_inner parse st tc with
  | Except.ok r => r
  | Except.error e => (st, renderToolError tc.name e)

/-- C7 (amended).  The dispatcher is total into a textual result by
construction (`renderToolError` covers every exception of the body).  A
record whose function name is outside the ten known operations and whose
arguments text parses yields exactly the "Unknown LLM function" text with
the state untouched.  (A validated record with an unknown name and empty
arguments instead gets the invalid-JSON text — also a textual result, see
the counterexample.) -/
theorem execute_unknown_function (parse : String → Option Json) (st : AppState)
    (tc : ToolCallRec) (hname : tc.name ∉ knownFunctionNames)
    (v : Json) (hargs : parse tc.arguments = some v) :
    execute_function_call_dict parse st tc = (st, "Unknown LLM function: " ++ tc.name) := by
  simp only [knownFunctionNames, List.mem_cons, List.not_mem_nil, or_false, not_or] at hname
  obtain ⟨n1, n2, n3, n4, n5, n6, n7, n8, n9, n10⟩ := hname
  unfold execute_function_call_dict execute_inner
  rw [hargs]
  simp only [n1, n2, n3, n4, n5, n6, n7, n8, n9, n10, beq_iff_eq, if_false, ite_false]
  rfl

/-- Witness for C7's amended theorem: a bogus operation name with parsable
arguments produces the unknown-function text and no state change. -/
theorem execute_unknown_function_witness :
    execute_function_call_dict (fun _ => some (Json.obj []))
        { fs := [], history := [], world := sampleWorld,
          gctx := { enabled := false, skip_staging := false, branch := none } }
        { id := "id-1", name := "bogus_fn", arguments := "x" } =
      ({ fs := [], history := [], world := sampleWorld,
         gctx := { enabled := false, skip_staging := false, branch := none } },
        "Unknown LLM function: bogus_fn") :=
  execute_unknown_function (fun _ => some (Json.obj []))
    { fs := [], history := [], world := sampleWorld,
      gctx := { enabled := false, skip_staging := false, branch := none } }
    { id := "id-1", name := "bogus_fn", arguments := "x" } (by decide) (Json.obj []) rfl

/-- C7 fails as stated: validation passes a record with empty arguments
(empty is "no arguments" to `validate_tool_calls`), but the dispatcher
starts with `json.loads(arguments)`, which raises on the empty string, so an
unknown name with empty arguments yields the invalid-JSON text — a textual
result, but not the claimed "unknown function" one.  (`json.loads("")`
always raises, so the parser is instantiated accordingly.) -/
theorem execute_unknown_empty_args_counterexample :
    valid_tool_call (fun _ => false) { id := "id-1", name := "bogus_fn", arguments := "" } = true ∧
    execute_function_call_dict (fun _ => none)
        { fs := [], history := [], world := sampleWorld,
          gctx := { enabled := false, skip_staging := false, branch := none } }
        { id := "id-1", name := "bogus_fn", arguments := "" } =
      ({ fs := [], history := [], world := sampleWorld,
         gctx := { enabled := false, skip_staging := false, branch := none } },
        "Error: Invalid JSON args for bogus_fn.") := by
  decide

end DeepSeekEng
